import Mathlib

/-!
Verification of the Gamma backend (`main.py`): the PPTX structural
extractor, the artifact-URL resolver, the create/status/result handlers, and
the job-polling contract.  Python data is embedded shallowly: JSON records
become association lists over a small value type, Python string operations
(`strip`, `join`, `lower`, `os.path.splitext`) become executable Lean
functions with the same semantics, and each route handler's pure core is
translated as a function of its inputs.
-/

namespace GammaBackend

/-! ## Python string primitives -/

/-- Whitespace characters stripped by `str.strip()` (ASCII subset). -/
def pyIsSpace (c : Char) : Bool :=
  c = ' ' || c = '\t' || c = '\n' || c = '\r' || c = '\x0b' || c = '\x0c'

/-- Python `s.strip()`: drop leading and trailing whitespace. -/
def pyStrip (s : String) : String :=
  ⟨((s.data.dropWhile pyIsSpace).reverse.dropWhile pyIsSpace).reverse⟩

/-- Python `sep.join(parts)`. -/
def pyJoin (sep : String) : List String → String
  | [] => ""
  | [p] => p
  | p :: q :: ps => p ++ sep ++ pyJoin sep (q :: ps)

/-- Python `s.lower()` (ASCII). -/
def pyLower (s : String) : String :=
  ⟨s.data.map Char.toLower⟩

/-! ## PPTX extractor (`extract_ppt_structure_and_text`)

A parsed presentation is modelled as the data the loop reads from
`python-pptx`: each slide is a list of shapes, each shape exposes
`has_text_frame` and the list of its paragraphs' `text` strings. -/

structure Shape where
  has_text_frame : Bool
  paragraphs : List String
deriving DecidableEq

structure PSlide where
  shapes : List Shape
deriving DecidableEq

structure TextBlock where
  text : String
deriving DecidableEq

structure SlideData where
  index : Nat
  shapes : List TextBlock
deriving DecidableEq

/-- Per-shape text: `"\n".join(p.text for p in paragraphs if p.text).strip()`
when the shape has a text frame, otherwise the initial `""`. -/
def shapeText (sh : Shape) : String :=
  if sh.has_text_frame then
    pyStrip (pyJoin "\n" (sh.paragraphs.filter (fun p => p ≠ "")))
  else ""

/-- The non-empty shape texts of one slide, in shape order: these are both
`shapes_data` (wrapped as blocks) and `slide_text_lines` in the source. -/
def slideTexts (shapes : List Shape) : List String :=
  (shapes.map shapeText).filter (fun t => t ≠ "")

/-- The outline section for one slide: header plus joined text lines, or the
placeholder marker when the slide produced no text. -/
def slidePart (idx : Nat) (lines : List String) : String :=
  if lines ≠ [] then "Slide " ++ Nat.repr idx ++ ":\n" ++ pyJoin "\n" lines
  else "Slide " ++ Nat.repr idx ++ ":\n(No visible text content)"

/-- The extraction loop over slides, enumerating from `idx`: returns
(`slides_data`, `outline_parts`). -/
def extractLoop : Nat → List PSlide → List SlideData × List String
  | _, [] => ([], [])
  | idx, s :: rest =>
    let texts := slideTexts s.shapes
    let r := extractLoop (idx + 1) rest
    ({ index := idx, shapes := texts.map (fun t => { text := t }) } :: r.1,
     slidePart idx texts :: r.2)

structure ExtractResult where
  slides : List SlideData
  outline_text : String
deriving DecidableEq

/-- `extract_ppt_structure_and_text` on an already-opened presentation:
enumerate slides from 1, then join the outline parts with `"\n---\n"`. -/
def extract_ppt_structure_and_text (ss : List PSlide) : ExtractResult :=
  let r := extractLoop 1 ss
  { slides := r.1, outline_text := pyJoin "\n---\n" r.2 }

/-- The `outline_parts` accumulator of the source loop. -/
def outline_parts (ss : List PSlide) : List String :=
  (extractLoop 1 ss).2

/-! ## JSON-ish values and Python truthiness

The upstream records the handlers read hold strings, nulls, and one level of
string-to-string maps (the `fileUrls` / `files` dictionaries); this value
type covers every field the source touches. -/

inductive JVal where
  | null
  | str (s : String)
  | strMap (fields : List (String × String))
deriving DecidableEq

/-- A JSON object: an association list, first binding wins on lookup. -/
abbrev JObj := List (String × JVal)

/-- Python `d.get(k)`: `none` models the absent key (Python `None`). -/
def jGet (o : JObj) (k : String) : Option JVal :=
  match o.find? (fun kv => kv.1 = k) with
  | some kv => some kv.2
  | none => none

/-- `d.get(k, default)`. -/
def jGetD (o : JObj) (k : String) (d : JVal) : JVal :=
  match jGet o k with
  | some v => v
  | none => d

/-- Lookup in an inner string map. -/
def mGet (m : List (String × String)) (k : String) : Option String :=
  match m.find? (fun kv => kv.1 = k) with
  | some kv => some kv.2
  | none => none

/-- Python truthiness of a possibly-absent JSON value: `None`, `null`, `""`
and `{}` are falsy. -/
def jTruthy : Option JVal → Bool
  | none => false
  | some .null => false
  | some (.str s) => s ≠ ""
  | some (.strMap m) => m ≠ []

/-- Python truthiness of an `Optional[str]`. -/
def sTruthy : Option String → Bool
  | none => false
  | some s => s ≠ ""

/-- Python `a or b` on possibly-absent JSON values. -/
def pyOr (a b : Option JVal) : Option JVal :=
  if jTruthy a then a else b

/-- Python `a or b` on optional strings. -/
def pyOrS (a b : Option String) : Option String :=
  if sTruthy a then a else b

/-! ## Artifact URL resolution (`download_gamma_file`, URL-finding part) -/

/-- The dictionary `file_urls` of step 2:
`gamma_result.get("fileUrls") or gamma_result.get("files") or {}`, kept only
when it is a dict (`isinstance(file_urls, dict)`). -/
def gammaFileUrls (gamma_result : JObj) : Option (List (String × String)) :=
  match pyOr (pyOr (jGet gamma_result "fileUrls") (jGet gamma_result "files"))
      (some (.strMap [])) with
  | some (.strMap m) => some m
  | _ => none

/-- Step 2 of the resolution: probe the dict with `"pdf"`, then `"pptx"`
(`file_urls.get("pdf") or file_urls.get("pptx")`); no dict leaves the URL
unset. -/
def fileUrlStep2 (gamma_result : JObj) : Option JVal :=
  match gammaFileUrls gamma_result with
  | some m =>
    match pyOrS (mGet m "pdf") (mGet m "pptx") with
    | some s => some (.str s)
    | none => none
  | none => none

/-- URL resolution of `download_gamma_file`: `exportUrl`, else the
`fileUrls`/`files` dict probed with `"pdf"` then `"pptx"`, else
`pdfUrl` / `pptxUrl`; with nothing truthy, the 500 error carries the raw
result record. -/
def download_gamma_file_url (gamma_result : JObj) : Except JObj JVal :=
  let f1 := jGet gamma_result "exportUrl"
  let f2 := if jTruthy f1 then f1 else fileUrlStep2 gamma_result
  let f3 :=
    if jTruthy f2 then f2
    else pyOr (jGet gamma_result "pdfUrl") (jGet gamma_result "pptxUrl")
  if jTruthy f3 then .ok (f3.getD .null) else .error gamma_result

/-- Modelled from the spec (§4.4), for comparison with the source resolver:
tier 2 consults the format map keyed by the configured export format first,
then the alternate of the two known formats. -/
def spec_resolve (export_format : String) (gamma_result : JObj) : Except JObj JVal :=
  let f1 := jGet gamma_result "exportUrl"
  let f2 :=
    if jTruthy f1 then f1
    else
      match gammaFileUrls gamma_result with
      | some m =>
        let k1 := export_format
        let k2 := if export_format = "pdf" then "pptx" else "pdf"
        match pyOrS (mGet m k1) (mGet m k2) with
        | some s => some (.str s)
        | none => none
      | none => none
  let f3 :=
    if jTruthy f2 then f2
    else pyOr (jGet gamma_result "pdfUrl") (jGet gamma_result "pptxUrl")
  if jTruthy f3 then .ok (f3.getD .null) else .error gamma_result

/-! ## Job creation (`call_gamma_from_template`, response handling) -/

/-- An upstream HTTP response: status code, body text, and the parsed JSON
object when the body parses (`resp.json()`). -/
structure HttpResponse where
  status_code : Nat
  text : String
  jsonBody : Option JObj
deriving DecidableEq

/-- `requests.Response.ok`: true unless the status is in 400..599. -/
def resp_ok (r : HttpResponse) : Bool :=
  !(400 ≤ r.status_code && r.status_code < 600)

inductive CreateResult where
  | success (generationId : JVal)
  | httpError (status_code : Nat) (detail : String)
deriving DecidableEq

/-- Response handling of `call_gamma_from_template`: non-`ok` statuses are
re-raised with the upstream status and body; otherwise the body must be JSON
and carry a truthy `generationId`. -/
def handle_create_response (resp : HttpResponse) : CreateResult :=
  if !resp_ok resp then
    .httpError resp.status_code ("Gamma create-from-template error: " ++ resp.text)
  else
    match resp.jsonBody with
    | none => .httpError 500 ("Gamma response is not valid JSON, raw: " ++ resp.text)
    | some data =>
      let generation_id := jGet data "generationId"
      if jTruthy generation_id then .success (generation_id.getD .null)
      else .httpError 500 "Gamma did not return generationId."

/-! ## Status probe (`beautify_status`) -/

/-- Core of the `/api/beautify_status` route: given the fetched generation
record, return the `status` (defaulting to `"unknown"` when the key is
absent) and the `gammaUrl` (JSON `null` when absent). -/
def beautify_status_core (data : JObj) : JVal × JVal :=
  (jGetD data "status" (.str "unknown"), (jGet data "gammaUrl").getD .null)

/-! ## `os.path.splitext` and the result route (`beautify_result`) -/

/-- Index of the last occurrence of `c`, preferring the tail. -/
def lastIdxOf (c : Char) : List Char → Option Nat
  | [] => none
  | x :: xs =>
    match lastIdxOf c xs with
    | some i => some (i + 1)
    | none => if x = c then some 0 else none

/-- `posixpath.splitext`: split off the last extension of the basename,
unless every character of the basename before the last dot is itself a dot. -/
def splitext (p : String) : String × String :=
  let cs := p.data
  match lastIdxOf '.' cs with
  | none => (p, "")
  | some dot =>
    let afterSep : Nat :=
      match lastIdxOf '/' cs with
      | none => 0
      | some i => i + 1
    if afterSep ≤ dot ∧ ((cs.drop afterSep).take (dot - afterSep)).any (fun c => c ≠ '.') then
      (⟨cs.take dot⟩, ⟨cs.drop dot⟩)
    else (p, "")

/-- `os.path.splitext(filename or "presentation")[0]` from `beautify_result`. -/
def beautify_base_name (filename : Option String) : String :=
  (splitext (if sTruthy filename then filename.getD "" else "presentation")).1

inductive BeautifyError where
  | notCompleted (status : Option JVal)
  | missingArtifact (record : JObj)
deriving DecidableEq

/-- The HTTP status code each `beautify_result` failure is raised with. -/
def beautifyErrorCode : BeautifyError → Nat
  | .notCompleted _ => 400
  | .missingArtifact _ => 500

structure BeautifyResponse where
  file_url : JVal
  output_filename : String
  media_type : String
deriving DecidableEq

/-- Core of the `/api/beautify_result` route, given the fetched generation
record, the optional `filename` query parameter, and the configured
`GAMMA_EXPORT_FORMAT`: reject any non-`completed` status with a 400 before
any download, then resolve the artifact URL and build the suggested filename
and media type. -/
def beautify_result_core (data : JObj) (filename : Option String)
    (export_format : String) : Except BeautifyError BeautifyResponse :=
  if jGet data "status" = some (.str "completed") then
    match download_gamma_file_url data with
    | .error rec => .error (.missingArtifact rec)
    | .ok u =>
      let base_name := beautify_base_name filename
      let ext := if pyLower export_format = "pdf" then "pdf" else "pptx"
      let output_filename := base_name ++ "_gamma_beautified." ++ ext
      let media_type :=
        if ext = "pdf" then "application/pdf"
        else "application/vnd.openxmlformats-officedocument.presentationml.presentation"
      .ok { file_url := u, output_filename := output_filename, media_type := media_type }
  else .error (.notCompleted (jGet data "status"))

/-! ## Blocking-mode job poller

The repository's split mode exposes only the single status probe
(`get_gamma_generation` behind `beautify_status`); the blocking `await`
operation of the spec's JobPoller is not part of `main.py`. -/

inductive PollOutcome where
  | ok (record : JObj)
  | upstreamFailure (record : JObj)
  | timeout
deriving DecidableEq

/-- The status token of a fetched generation record. -/
def pollStatus (r : JObj) : Option JVal := jGet r "status"

/-- Modelled from the spec: the loop body of the blocking-mode
`await(jobId, pollInterval, maxWait)` of §4.3, which is absent from the
source (only the single-probe mode exists).  `fetch n` is the record
returned by the n-th status fetch; `completed` emits the record, `failed`
emits UpstreamFailure, any other status waits `pollInterval` after checking
that the elapsed time would not exceed `maxWait`. -/
def pollAwaitGo (fetch : Nat → JObj) (pollInterval maxWait : Nat) :
    Nat → Nat → PollOutcome
  | 0, _ => .timeout
  | fuel + 1, n =>
    let r := fetch n
    if pollStatus r = some (.str "completed") then .ok r
    else if pollStatus r = some (.str "failed") then .upstreamFailure r
    else if maxWait < (n + 1) * pollInterval then .timeout
    else pollAwaitGo fetch pollInterval maxWait fuel (n + 1)

/-- Modelled from the spec: blocking-mode `await` (§4.3), driven with enough
fuel that only the deadline check can stop a run with positive interval. -/
def pollAwait (fetch : Nat → JObj) (pollInterval maxWait : Nat) : PollOutcome :=
  pollAwaitGo fetch pollInterval maxWait (maxWait / max 1 pollInterval + 1) 0

/-! ## Delimiter segmentation

Segmenting a string by a delimiter, at the character-list level: scan left
to right, cut at each non-overlapping occurrence of the delimiter.  This is
the downstream re-segmentation the outline text is supposed to support. -/

/-- `leadsWith pat s`: `s` starts with `pat`. -/
def leadsWith : List Char → List Char → Bool
  | [], _ => true
  | _ :: _, [] => false
  | a :: pat, b :: s => a = b && leadsWith pat s

/-- `endsWith pat s`: `s` ends with `pat`. -/
def endsWith (pat s : List Char) : Bool :=
  leadsWith pat.reverse s.reverse

/-- First occurrence of `sep`: returns the text before it and the text after
it, or `none` when `sep` does not occur. -/
def findOcc (sep : List Char) : List Char → Option (List Char × List Char)
  | [] => none
  | c :: rest =>
    if leadsWith sep (c :: rest) then some ([], (c :: rest).drop sep.length)
    else
      match findOcc sep rest with
      | some pp => some (c :: pp.1, pp.2)
      | none => none

/-- Fuelled splitter: cut at each occurrence of `sep`, left to right. -/
def splitSeqFuel (sep : List Char) : Nat → List Char → List (List Char)
  | 0, s => [s]
  | fuel + 1, s =>
    match findOcc sep s with
    | none => [s]
    | some pp => pp.1 :: splitSeqFuel sep fuel pp.2

/-- Segment `s` by the delimiter `sep` (enough fuel for every occurrence). -/
def splitSeq (sep s : List Char) : List (List Char) :=
  splitSeqFuel sep s.length s

/-- Character-list counterpart of `pyJoin`. -/
def catSep (sep : List Char) : List (List Char) → List Char
  | [] => []
  | [p] => p
  | p :: q :: ps => p ++ sep ++ catSep sep (q :: ps)

/-- The slide delimiter of the outline text, as characters. -/
def sepChars : List Char := "\n---\n".data

/-- The only self-overlapping border of the delimiter: a section ending in
this fragment lets an occurrence of the delimiter straddle the section
boundary. -/
def ovlChars : List Char := "\n---".data

/-! ## Extraction: slide count, indices, block texts -/

theorem extractLoop_spec (ss : List PSlide) (k : Nat) :
    (extractLoop k ss).1.map SlideData.index = List.range' k ss.length
    ∧ (extractLoop k ss).1.length = ss.length
    ∧ (extractLoop k ss).2.length = ss.length := by
  induction ss generalizing k with
  | nil => simp [extractLoop]
  | cons s rest ih =>
    refine ⟨?_, ?_, ?_⟩ <;>
      simp [extractLoop, List.range'_succ, (ih (k + 1)).1, (ih (k + 1)).2.1, (ih (k + 1)).2.2]

/-- C4: for every well-formed input document with N slides, extraction
produces exactly N slide entries whose index fields are 1..N, contiguous
with no gaps, in source document traversal order; a slide with zero
non-empty text blocks is still among the N retained entries. -/
theorem extract_slide_count_and_indices (ss : List PSlide) :
    (extract_ppt_structure_and_text ss).slides.length = ss.length
    ∧ (extract_ppt_structure_and_text ss).slides.map SlideData.index
        = List.range' 1 ss.length := by
  refine ⟨(extractLoop_spec ss 1).2.1, (extractLoop_spec ss 1).1⟩

/-- C5: a shape's block text drops empty paragraph strings, joins the rest
with newline and trims the result; `["a", "", "b"]` yields `"a\nb"`, and a
shape whose resulting text is empty contributes no block. -/
theorem shape_block_text_spec :
    shapeText { has_text_frame := true, paragraphs := ["a", "", "b"] } = "a\nb"
    ∧ shapeText { has_text_frame := true, paragraphs := [" a", "", "b "] } = "a\nb"
    ∧ (∀ (sh : Shape) (shapes : List Shape), shapeText sh = "" →
        slideTexts (sh :: shapes) = slideTexts shapes)
    ∧ (∀ sh : Shape, sh.has_text_frame = true →
        shapeText sh = pyStrip (pyJoin "\n" (sh.paragraphs.filter (fun p => p ≠ "")))) := by
  refine ⟨rfl, rfl, ?_, ?_⟩
  · intro sh shapes h
    simp [slideTexts, List.filter_cons, h]
  · intro sh h
    simp [shapeText, h]

theorem shape_block_text_spec_witness :
    slideTexts [{ has_text_frame := true, paragraphs := [""] },
                { has_text_frame := true, paragraphs := ["x"] }]
      = slideTexts [{ has_text_frame := true, paragraphs := ["x"] }]
    ∧ shapeText { has_text_frame := true, paragraphs := ["y", ""] }
        = pyStrip (pyJoin "\n" ((["y", ""] : List String).filter (fun p => p ≠ ""))) :=
  ⟨shape_block_text_spec.2.2.1 _ _ rfl, shape_block_text_spec.2.2.2 _ rfl⟩

/-! ## Result route: status gate -/

/-- C8: any fetched status other than exactly `completed` (including
`failed` and `pending`) makes the result operation raise a 400 reporting the
current status, before any artifact resolution or download. -/
theorem result_not_completed_rejects (data : JObj) (filename : Option String)
    (export_format : String) (h : jGet data "status" ≠ some (.str "completed")) :
    beautify_result_core data filename export_format
      = .error (.notCompleted (jGet data "status"))
    ∧ beautifyErrorCode (.notCompleted (jGet data "status")) = 400 := by
  refine ⟨?_, rfl⟩
  simp [beautify_result_core, h]

theorem result_not_completed_rejects_witness :
    beautify_result_core [("status", JVal.str "failed")] none "pdf"
      = .error (.notCompleted (jGet [("status", JVal.str "failed")] "status"))
    ∧ beautifyErrorCode (.notCompleted (jGet [("status", JVal.str "failed")] "status")) = 400 :=
  result_not_completed_rejects [("status", JVal.str "failed")] none "pdf" (by decide)

/-! ## Status probe -/

/-- C9: the status probe is total on any JSON body: a missing status field
yields the string `unknown`, and the view URL is the body's `gammaUrl` value
or JSON null when the field is absent. -/
theorem status_probe_total (data : JObj) :
    (jGet data "status" = none → (beautify_status_core data).1 = .str "unknown")
    ∧ (∀ v, jGet data "status" = some v → (beautify_status_core data).1 = v)
    ∧ (jGet data "gammaUrl" = none → (beautify_status_core data).2 = .null)
    ∧ (∀ v, jGet data "gammaUrl" = some v → (beautify_status_core data).2 = v) := by
  refine ⟨fun h => ?_, fun v h => ?_, fun h => ?_, fun v h => ?_⟩ <;>
    simp [beautify_status_core, jGetD, h]

theorem status_probe_total_witness :
    (beautify_status_core [("gammaUrl", JVal.str "G")]).1 = .str "unknown"
    ∧ (beautify_status_core [("gammaUrl", JVal.str "G")]).2 = .str "G" :=
  ⟨(status_probe_total _).1 rfl, (status_probe_total _).2.2.2 _ rfl⟩

/-! ## Base-name derivation -/

theorem lastIdxOf_append_of_some {c : Char} {ys : List Char} {j : Nat}
    (h : lastIdxOf c ys = some j) (xs : List Char) :
    lastIdxOf c (xs ++ ys) = some (xs.length + j) := by
  induction xs with
  | nil => simpa using h
  | cons x xs ih =>
    simp only [List.cons_append, lastIdxOf, List.append_eq, ih, List.length_cons]
    congr 1
    omega

theorem lastIdxOf_eq_none {c : Char} {xs : List Char} (h : c ∉ xs) :
    lastIdxOf c xs = none := by
  induction xs with
  | nil => rfl
  | cons x xs ih =>
    simp only [List.mem_cons, not_or] at h
    have hx : ¬(x = c) := fun hxc => h.1 hxc.symm
    simp [lastIdxOf, ih h.2, hx]

/-- With no dot in the extension part and at least one non-dot character in
the stem, `splitext` cuts exactly at the final dot. -/
theorem base_name_strips_last_ext (s t : String)
    (hs : ∃ c ∈ s.data, c ≠ '.') (ht : '.' ∉ t.data)
    (hs2 : '/' ∉ s.data) (ht2 : '/' ∉ t.data) :
    beautify_base_name (some (s ++ "." ++ t)) = s := by
  have hdata : (s ++ "." ++ t).data = s.data ++ '.' :: t.data := by
    simp [String.data_append]
  have hne : (s ++ "." ++ t) ≠ "" := by
    intro h
    have := congrArg String.data h
    rw [hdata] at this
    simp at this
  have hdot : lastIdxOf '.' ((s ++ "." ++ t)).data = some s.data.length := by
    rw [hdata]
    have hin : lastIdxOf '.' ('.' :: t.data) = some 0 := by
      simp [lastIdxOf, lastIdxOf_eq_none ht]
    simpa using lastIdxOf_append_of_some hin s.data
  have hslash : lastIdxOf '/' ((s ++ "." ++ t)).data = none := by
    refine lastIdxOf_eq_none ?_
    rw [hdata]
    simp only [List.mem_append, List.mem_cons]
    rintro (h | h | h)
    · exact hs2 h
    · exact absurd h (by decide)
    · exact ht2 h
  have hany : (((s ++ "." ++ t)).data.take s.data.length).any (fun c => c ≠ '.') = true := by
    rw [hdata, List.take_left]
    obtain ⟨c, hc, hcd⟩ := hs
    exact List.any_eq_true.mpr ⟨c, hc, by simpa using hcd⟩
  have htake : ((s ++ "." ++ t)).data.take s.data.length = s.data := by
    rw [hdata]; exact List.take_left _ _
  have htr : sTruthy (some (s ++ "." ++ t)) = true := by
    simp [sTruthy, hne]
  simp only [beautify_base_name, htr, if_true, Option.getD_some, splitext, hdot, hslash]
  rw [if_pos]
  · rw [htake]
  · exact ⟨Nat.zero_le _, by simpa using hany⟩

/-- C10: with the output-name hint absent or empty the base name defaults to
`presentation`; with a hint supplied, exactly the final dot-extension is
stripped. -/
theorem base_name_derivation :
    beautify_base_name none = "presentation"
    ∧ beautify_base_name (some "") = "presentation"
    ∧ beautify_base_name (some "slides.pptx") = "slides"
    ∧ beautify_base_name (some "report.final.pptx") = "report.final"
    ∧ beautify_base_name (some "deck") = "deck"
    ∧ (∀ s t : String, (∃ c ∈ s.data, c ≠ '.') → '.' ∉ t.data →
        '/' ∉ s.data → '/' ∉ t.data →
        beautify_base_name (some (s ++ "." ++ t)) = s) :=
  ⟨rfl, rfl, rfl, rfl, rfl, base_name_strips_last_ext⟩

theorem base_name_derivation_witness :
    beautify_base_name (some ("my.deck" ++ "." ++ "pptx")) = "my.deck" :=
  base_name_derivation.2.2.2.2.2 "my.deck" "pptx" (by decide) (by decide) (by decide) (by decide)

/-! ## Artifact URL resolution -/

/-- C1 counterexample: with only a format map present and the configured
export format `pptx`, the documented precedence (spec tier 2, keyed by the
configured format) picks the pptx URL, but the source always probes `pdf`
first, so it returns the pdf URL. -/
theorem resolve_precedence_counterexample :
    download_gamma_file_url [("fileUrls", JVal.strMap [("pdf", "P"), ("pptx", "X")])]
      = .ok (.str "P")
    ∧ spec_resolve "pptx" [("fileUrls", JVal.strMap [("pdf", "P"), ("pptx", "X")])]
      = .ok (.str "X")
    ∧ JVal.str "P" ≠ JVal.str "X" :=
  ⟨rfl, rfl, by decide⟩

/-- C1 amended: resolution precedence with tier 2 probing the format map in
the fixed order `pdf` then `pptx`, regardless of the configured export
format: (1) a truthy `exportUrl` wins; (2) else the `fileUrls`/`files` dict,
`pdf` key then `pptx` key; (3) else the flat `pdfUrl`, then `pptxUrl`; with
nothing truthy the error carries the raw result record. -/
theorem resolve_precedence_amended (rec : JObj) :
    (jTruthy (jGet rec "exportUrl") = true →
      download_gamma_file_url rec = .ok ((jGet rec "exportUrl").getD .null))
    ∧ (jTruthy (jGet rec "exportUrl") = false → ∀ m, gammaFileUrls rec = some m →
        (sTruthy (mGet m "pdf") = true →
          download_gamma_file_url rec = .ok (.str ((mGet m "pdf").getD "")))
        ∧ (sTruthy (mGet m "pdf") = false → sTruthy (mGet m "pptx") = true →
          download_gamma_file_url rec = .ok (.str ((mGet m "pptx").getD ""))))
    ∧ (jTruthy (jGet rec "exportUrl") = false → jTruthy (fileUrlStep2 rec) = false →
        (jTruthy (jGet rec "pdfUrl") = true →
          download_gamma_file_url rec = .ok ((jGet rec "pdfUrl").getD .null))
        ∧ (jTruthy (jGet rec "pdfUrl") = false → jTruthy (jGet rec "pptxUrl") = true →
          download_gamma_file_url rec = .ok ((jGet rec "pptxUrl").getD .null))
        ∧ (jTruthy (jGet rec "pdfUrl") = false → jTruthy (jGet rec "pptxUrl") = false →
          download_gamma_file_url rec = .error rec)) := by
  refine ⟨fun h1 => ?_, fun h1 m hm => ⟨fun hp => ?_, fun hp hx => ?_⟩,
    fun h1 h2 => ⟨fun hd => ?_, fun hd hq => ?_, fun hd hq => ?_⟩⟩
  · simp [download_gamma_file_url, h1]
  · obtain ⟨s, hs, hsne⟩ : ∃ s, mGet m "pdf" = some s ∧ s ≠ "" := by
      cases hmp : mGet m "pdf" with
      | none => rw [hmp] at hp; simp [sTruthy] at hp
      | some s => rw [hmp] at hp; simp [sTruthy] at hp; exact ⟨s, rfl, hp⟩
    have hstep : fileUrlStep2 rec = some (.str s) := by
      simp [fileUrlStep2, hm, pyOrS, hs, sTruthy, hsne]
    have htr : jTruthy (some (JVal.str s)) = true := by simp [jTruthy, hsne]
    simp [download_gamma_file_url, h1, hstep, htr, hs]
  · obtain ⟨s, hs, hsne⟩ : ∃ s, mGet m "pptx" = some s ∧ s ≠ "" := by
      cases hmp : mGet m "pptx" with
      | none => rw [hmp] at hx; simp [sTruthy] at hx
      | some s => rw [hmp] at hx; simp [sTruthy] at hx; exact ⟨s, rfl, hx⟩
    have hstep : fileUrlStep2 rec = some (.str s) := by
      simp [fileUrlStep2, hm, pyOrS, hp, hs]
    have htr : jTruthy (some (JVal.str s)) = true := by simp [jTruthy, hsne]
    simp [download_gamma_file_url, h1, hstep, htr, hs]
  · simp [download_gamma_file_url, h1, h2, pyOr, hd]
  · simp [download_gamma_file_url, h1, h2, pyOr, hd, hq]
  · simp [download_gamma_file_url, h1, h2, pyOr, hd, hq]

theorem resolve_precedence_amended_witness :
    download_gamma_file_url [("exportUrl", JVal.str "E")]
      = .ok ((jGet [("exportUrl", JVal.str "E")] "exportUrl").getD .null)
    ∧ download_gamma_file_url [("fileUrls", JVal.strMap [("pdf", "P"), ("pptx", "X")])]
        = .ok (.str ((mGet [("pdf", "P"), ("pptx", "X")] "pdf").getD ""))
    ∧ download_gamma_file_url [("files", JVal.strMap [("pptx", "X2")])]
        = .ok (.str ((mGet [("pptx", "X2")] "pptx").getD ""))
    ∧ download_gamma_file_url [("pdfUrl", JVal.str "D")]
        = .ok ((jGet [("pdfUrl", JVal.str "D")] "pdfUrl").getD .null)
    ∧ download_gamma_file_url [("pptxUrl", JVal.str "Q")]
        = .ok ((jGet [("pptxUrl", JVal.str "Q")] "pptxUrl").getD .null)
    ∧ download_gamma_file_url [] = .error [] :=
  ⟨(resolve_precedence_amended _).1 (by decide),
   ((resolve_precedence_amended [("fileUrls", JVal.strMap [("pdf", "P"), ("pptx", "X")])]).2.1
      (by decide) [("pdf", "P"), ("pptx", "X")] rfl).1 (by decide),
   ((resolve_precedence_amended [("files", JVal.strMap [("pptx", "X2")])]).2.1
      (by decide) [("pptx", "X2")] rfl).2 (by decide) (by decide),
   ((resolve_precedence_amended _).2.2 (by decide) (by decide)).1 (by decide),
   ((resolve_precedence_amended _).2.2 (by decide) (by decide)).2.1 (by decide) (by decide),
   ((resolve_precedence_amended _).2.2 (by decide) (by decide)).2.2 (by decide) (by decide)⟩

/-! ## Blocking poller scenarios -/

theorem pollAwaitGo_pending_step (fetch : Nat → JObj) (i w fuel n : Nat)
    (hp : pollStatus (fetch n) = some (.str "pending"))
    (hc : ¬ (w < (n + 1) * i)) :
    pollAwaitGo fetch i w (fuel + 1) n = pollAwaitGo fetch i w fuel (n + 1) := by
  simp [pollAwaitGo, hp, hc]

theorem pollAwaitGo_completed (fetch : Nat → JObj) (i w fuel n : Nat)
    (hp : pollStatus (fetch n) = some (.str "completed")) :
    pollAwaitGo fetch i w (fuel + 1) n = .ok (fetch n) := by
  simp [pollAwaitGo, hp]

theorem pollAwaitGo_failed (fetch : Nat → JObj) (i w fuel n : Nat)
    (hp : pollStatus (fetch n) = some (.str "failed")) :
    pollAwaitGo fetch i w (fuel + 1) n = .upstreamFailure (fetch n) := by
  simp [pollAwaitGo, hp]

theorem pollAwaitGo_pending_forever (fetch : Nat → JObj) (i w : Nat)
    (h : ∀ n, pollStatus (fetch n) = some (.str "pending")) :
    ∀ fuel n, pollAwaitGo fetch i w fuel n = .timeout := by
  intro fuel
  induction fuel with
  | zero => intro n; rfl
  | succ f ih =>
    intro n
    have e : pollAwaitGo fetch i w (f + 1) n =
        if w < (n + 1) * i then .timeout else pollAwaitGo fetch i w f (n + 1) := by
      simp [pollAwaitGo, h n]
    rw [e]
    split
    · rfl
    · exact ih (n + 1)

theorem pollAwaitGo_three (fetch : Nat → JObj) (i w k : Nat)
    (h0 : pollStatus (fetch 0) = some (.str "pending"))
    (h1 : pollStatus (fetch 1) = some (.str "pending"))
    (h2 : pollStatus (fetch 2) = some (.str "completed"))
    (hc1 : ¬ (w < i)) (hc2 : ¬ (w < 2 * i)) :
    pollAwaitGo fetch i w (k + 3) 0 = .ok (fetch 2) := by
  have e1 : pollAwaitGo fetch i w (k + 3) 0 = pollAwaitGo fetch i w (k + 2) 1 := by
    simpa using pollAwaitGo_pending_step fetch i w (k + 2) 0 h0 (by simpa using hc1)
  have e2 : pollAwaitGo fetch i w (k + 2) 1 = pollAwaitGo fetch i w (k + 1) 2 := by
    simpa using pollAwaitGo_pending_step fetch i w (k + 1) 1 h1 (by simpa using hc2)
  have e3 : pollAwaitGo fetch i w (k + 1) 2 = .ok (fetch 2) :=
    pollAwaitGo_completed fetch i w k 2 h2
  rw [e1, e2, e3]

theorem poll_await_scenarios :
    (∀ (fetch : Nat → JObj) (i w : Nat),
      pollStatus (fetch 0) = some (.str "pending") →
      pollStatus (fetch 1) = some (.str "pending") →
      pollStatus (fetch 2) = some (.str "completed") →
      0 < i → 2 * i ≤ w →
      pollAwait fetch i w = .ok (fetch 2))
    ∧ (∀ (fetch : Nat → JObj) (i w : Nat),
      (∀ n, pollStatus (fetch n) = some (.str "pending")) →
      pollAwait fetch i w = .timeout)
    ∧ (∀ (fetch : Nat → JObj) (i w : Nat),
      pollStatus (fetch 0) = some (.str "failed") →
      pollAwait fetch i w = .upstreamFailure (fetch 0)
      ∧ ∀ fetch2 : Nat → JObj, fetch2 0 = fetch 0 →
          pollAwait fetch2 i w = pollAwait fetch i w) := by
  refine ⟨?_, ?_, ?_⟩
  · intro fetch i w h0 h1 h2 hi hw
    have hmax : max 1 i = i := Nat.max_eq_right hi
    have hdiv : 2 ≤ w / i := (Nat.le_div_iff_mul_le hi).mpr (by omega)
    obtain ⟨k, hk⟩ : ∃ k, w / max 1 i + 1 = k + 3 := ⟨w / i - 2, by rw [hmax]; omega⟩
    show pollAwaitGo fetch i w (w / max 1 i + 1) 0 = .ok (fetch 2)
    rw [hk]
    exact pollAwaitGo_three fetch i w k h0 h1 h2 (by omega) (by omega)
  · intro fetch i w h
    exact pollAwaitGo_pending_forever fetch i w h _ _
  · intro fetch i w h0
    have hmain : pollAwait fetch i w = .upstreamFailure (fetch 0) :=
      pollAwaitGo_failed fetch i w (w / max 1 i) 0 h0
    refine ⟨hmain, fun fetch2 h20 => ?_⟩
    have h02 : pollStatus (fetch2 0) = some (.str "failed") := by
      rw [show pollStatus (fetch2 0) = pollStatus (fetch 0) from congrArg pollStatus h20]
      exact h0
    have hmain2 : pollAwait fetch2 i w = .upstreamFailure (fetch2 0) :=
      pollAwaitGo_failed fetch2 i w (w / max 1 i) 0 h02
    rw [hmain, hmain2, h20]

theorem poll_await_scenarios_witness :
    pollAwait (fun n => if n < 2 then [("status", JVal.str "pending")]
        else [("status", JVal.str "completed")]) 1 10
      = .ok ((fun n : Nat => if n < 2 then [("status", JVal.str "pending")]
        else [("status", JVal.str "completed")]) 2)
    ∧ pollAwait (fun _ => [("status", JVal.str "pending")]) 1 5 = .timeout
    ∧ pollAwait (fun _ => [("status", JVal.str "failed")]) 1 5
      = .upstreamFailure ((fun _ : Nat => [("status", JVal.str "failed")]) 0) :=
  ⟨poll_await_scenarios.1 _ 1 10 rfl rfl rfl (by decide) (by decide),
   poll_await_scenarios.2.1 _ 1 5 (fun _ => rfl),
   (poll_await_scenarios.2.2 (fun _ : Nat => [("status", JVal.str "failed")]) 1 5 rfl).1⟩

/-! ## Job creation and the result route -/

/-- C6 counterexample: a 304 creation response is outside the 2xx success
range, yet the handler accepts it and extracts the job identifier instead of
raising an error with the upstream status and body. -/
theorem create_response_success_range_counterexample :
    handle_create_response
        { status_code := 304, text := "x",
          jsonBody := some [("generationId", JVal.str "g1")] }
      = .success (.str "g1")
    ∧ (∀ s d, handle_create_response
        { status_code := 304, text := "x",
          jsonBody := some [("generationId", JVal.str "g1")] } ≠ .httpError s d)
    ∧ ¬(200 ≤ 304 ∧ 304 ≤ 299) := by
  refine ⟨rfl, ?_, by omega⟩
  intro s d h
  rw [show handle_create_response
      { status_code := 304, text := "x",
        jsonBody := some [("generationId", JVal.str "g1")] }
      = .success (.str "g1") from rfl] at h
  exact CreateResult.noConfusion h

/-- C6 amended: the success test is `requests`' `ok` predicate (status
outside 400..599, strictly wider than 2xx); a 400..599 response raises an
error carrying the original upstream status code and the body verbatim,
without extraction, and any `ok` response with a JSON body carrying a truthy
`generationId` has that identifier extracted. -/
theorem create_response_amended (resp : HttpResponse) :
    (400 ≤ resp.status_code → resp.status_code < 600 →
      handle_create_response resp
        = .httpError resp.status_code ("Gamma create-from-template error: " ++ resp.text))
    ∧ (resp_ok resp = true → ∀ data, resp.jsonBody = some data →
        jTruthy (jGet data "generationId") = true →
        handle_create_response resp = .success ((jGet data "generationId").getD .null)) := by
  constructor
  · intro h1 h2
    have hok : resp_ok resp = false := by
      simp only [resp_ok, Bool.not_eq_false', Bool.and_eq_true, decide_eq_true_eq]
      exact ⟨h1, h2⟩
    simp [handle_create_response, hok]
  · intro hok data hdata hid
    simp [handle_create_response, hok, hdata, hid]

theorem create_response_amended_witness :
    handle_create_response { status_code := 503, text := "oops", jsonBody := none }
      = .httpError 503 ("Gamma create-from-template error: " ++ "oops")
    ∧ handle_create_response
        { status_code := 201, text := "b",
          jsonBody := some [("generationId", JVal.str "gid")] }
      = .success ((jGet [("generationId", JVal.str "gid")] "generationId").getD .null) :=
  ⟨(create_response_amended { status_code := 503, text := "oops", jsonBody := none }).1
      (by decide) (by decide),
   (create_response_amended
        { status_code := 201, text := "b",
          jsonBody := some [("generationId", JVal.str "gid")] }).2
      (by decide) [("generationId", JVal.str "gid")] rfl (by decide)⟩

/-- C7 counterexample: with no name hint and export format pdf, the result
operation suggests `presentation_gamma_beautified.pdf`, not the documented
`baseName_beautified.ext` form (which here would be
`presentation_beautified.pdf`). -/
theorem result_filename_counterexample :
    beautify_result_core [("status", JVal.str "completed"), ("exportUrl", JVal.str "U")]
        none "pdf"
      = .ok { file_url := .str "U",
              output_filename := "presentation_gamma_beautified.pdf",
              media_type := "application/pdf" }
    ∧ "presentation_gamma_beautified.pdf" ≠ "presentation" ++ "_beautified." ++ "pdf" :=
  ⟨rfl, by decide⟩

/-- C7 amended: for a completed job with a resolvable artifact URL, the
result operation returns that URL with suggested filename
`baseName ++ "_gamma_beautified." ++ ext` and the media type determined by
the configured export format (`pdf`, compared case-insensitively, gives the
PDF media type; anything else the open-format presentation media type). -/
theorem result_filename_amended (data : JObj) (filename : Option String)
    (export_format : String) (u : JVal)
    (hst : jGet data "status" = some (.str "completed"))
    (hurl : download_gamma_file_url data = .ok u) :
    beautify_result_core data filename export_format
      = .ok { file_url := u,
              output_filename := beautify_base_name filename ++ "_gamma_beautified."
                ++ (if pyLower export_format = "pdf" then "pdf" else "pptx"),
              media_type :=
                if pyLower export_format = "pdf" then "application/pdf"
                else "application/vnd.openxmlformats-officedocument.presentationml.presentation" } := by
  by_cases hfmt : pyLower export_format = "pdf"
  · simp [beautify_result_core, hst, hurl, hfmt]
  · simp [beautify_result_core, hst, hurl, hfmt]

theorem result_filename_amended_witness :
    beautify_result_core [("status", JVal.str "completed"), ("pdfUrl", JVal.str "D")]
        (some "deck.pptx") "PPTX"
      = .ok { file_url := .str "D",
              output_filename := "deck_gamma_beautified.pptx",
              media_type := "application/vnd.openxmlformats-officedocument.presentationml.presentation" } := by
  have h := result_filename_amended [("status", JVal.str "completed"), ("pdfUrl", JVal.str "D")]
    (some "deck.pptx") "PPTX" (.str "D") rfl rfl
  exact h

/-! ## Outline segmentation

The round-trip property: splitting the outline text back at the delimiter.
`leadsWith`/`endsWith`/`findOcc` support reasoning about where the delimiter
can occur inside the joined text. -/

theorem leadsWith_iff (pat s : List Char) : leadsWith pat s = true ↔ pat <+: s := by
  induction pat generalizing s with
  | nil => simp [leadsWith, List.nil_prefix]
  | cons a pat ih =>
    cases s with
    | nil => simp [leadsWith]
    | cons b s =>
      simp only [leadsWith, Bool.and_eq_true, decide_eq_true_eq, ih,
        List.cons_prefix_cons]

theorem leadsWith_self_append (p t : List Char) : leadsWith p (p ++ t) = true :=
  (leadsWith_iff _ _).mpr ⟨t, rfl⟩

theorem leadsWith_of_append (pat a b : List Char)
    (h : leadsWith pat (a ++ b) = true) (hlen : pat.length ≤ a.length) :
    leadsWith pat a = true := by
  rw [leadsWith_iff] at h ⊢
  obtain ⟨t, ht⟩ := h
  refine ⟨a.drop pat.length, ?_⟩
  have htake : pat = a.take pat.length := by
    have h1 : (a ++ b).take pat.length = pat ++ t.take (pat.length - pat.length) := by
      rw [← ht, List.take_append_eq_append_take, List.take_length]
    have h2 : (a ++ b).take pat.length = a.take pat.length := by
      rw [List.take_append_eq_append_take, Nat.sub_eq_zero_of_le hlen]
      simp
    simp only [Nat.sub_self, List.take_zero, List.append_nil] at h1
    rw [h1] at h2
    exact h2
  calc pat ++ a.drop pat.length
      = a.take pat.length ++ a.drop pat.length := by rw [← htake]
    _ = a := List.take_append_drop _ _

theorem endsWith_iff (pat s : List Char) : endsWith pat s = true ↔ pat <:+ s := by
  rw [endsWith, leadsWith_iff]
  exact List.reverse_prefix

theorem suffix_cons_cases {q : List Char} {c : Char} {rest : List Char}
    (h : q <:+ c :: rest) : q = c :: rest ∨ q <:+ rest := by
  obtain ⟨a, ha⟩ := h
  cases a with
  | nil => left; simpa using ha
  | cons x xs =>
    right
    refine ⟨xs, ?_⟩
    simpa using (List.cons.inj ha).2

theorem findOcc_none_parts {sep : List Char} {c : Char} {rest : List Char}
    (h : findOcc sep (c :: rest) = none) :
    leadsWith sep (c :: rest) = false ∧ findOcc sep rest = none := by
  by_cases hl : leadsWith sep (c :: rest) = true
  · rw [findOcc, if_pos hl] at h
    exact absurd h (by simp)
  · refine ⟨by simpa using hl, ?_⟩
    rw [findOcc, if_neg hl] at h
    cases hr : findOcc sep rest with
    | none => rfl
    | some pp => rw [hr] at h; exact absurd h (by simp)

theorem noOcc_suffixes {sep p : List Char} (hsep : sep ≠ [])
    (h : findOcc sep p = none) : ∀ q, q <:+ p → leadsWith sep q = false := by
  induction p with
  | nil =>
    intro q hq
    rw [List.suffix_nil.mp hq]
    cases sep with
    | nil => exact absurd rfl hsep
    | cons a as => rfl
  | cons c rest ih =>
    intro q hq
    obtain ⟨h1, h2⟩ := findOcc_none_parts h
    rcases suffix_cons_cases hq with hq1 | hq2
    · rw [hq1]; exact h1
    · exact ih h2 q hq2

theorem findOcc_self (sep t : List Char) (hsep : sep ≠ []) :
    findOcc sep (sep ++ t) = some ([], t) := by
  cases hs : sep with
  | nil => exact absurd hs hsep
  | cons a as =>
    subst hs
    show findOcc (a :: as) (a :: (as ++ t)) = some ([], t)
    have hl : leadsWith (a :: as) (a :: (as ++ t)) = true := by
      simpa using leadsWith_self_append (a :: as) t
    simp only [findOcc, hl, if_true]
    simp [List.drop_left]

theorem findOcc_append (sep t : List Char) (hsep : sep ≠ []) (p : List Char)
    (hno : findOcc sep p = none)
    (hov : ∀ d, 0 < d → d < sep.length → sep.drop d = sep.take (sep.length - d) →
      ¬ (sep.take d <:+ p)) :
    findOcc sep (p ++ sep ++ t) = some (p, t) := by
  suffices h : ∀ q, q <:+ p → findOcc sep (q ++ (sep ++ t)) = some (q, t) by
    have h2 := h p List.suffix_rfl
    rw [← List.append_assoc] at h2
    exact h2
  intro q
  induction q with
  | nil =>
    intro _
    rw [List.nil_append]
    exact findOcc_self sep t hsep
  | cons c q' ih =>
    intro hq
    have hq' : q' <:+ p := List.IsSuffix.trans (List.suffix_cons c q') hq
    have hlw : leadsWith sep ((c :: q') ++ (sep ++ t)) = false := by
      by_cases hcon : leadsWith sep ((c :: q') ++ (sep ++ t)) = true
      · exfalso
        by_cases hlen : sep.length ≤ (c :: q').length
        · have h1 : leadsWith sep (c :: q') = true :=
            leadsWith_of_append sep (c :: q') (sep ++ t) hcon hlen
          have h2 := noOcc_suffixes hsep hno (c :: q') hq
          rw [h1] at h2
          exact Bool.noConfusion h2
        · push_neg at hlen
          obtain ⟨u, hu⟩ := (leadsWith_iff _ _).mp hcon
          have hu' : (c :: q') ++ (sep ++ t) = sep ++ u := hu.symm
          have htakeq : c :: q' = sep.take (c :: q').length := by
            have hL : ((c :: q') ++ (sep ++ t)).take (c :: q').length = c :: q' :=
              List.take_left _ _
            have hR : (sep ++ u).take (c :: q').length = sep.take (c :: q').length := by
              rw [List.take_append_eq_append_take,
                Nat.sub_eq_zero_of_le (Nat.le_of_lt hlen)]
              simp
            rw [hu', hR] at hL
            exact hL.symm
          have hdropeq : sep.drop (c :: q').length = sep.take (sep.length - (c :: q').length) := by
            have hL : ((c :: q') ++ (sep ++ t)).drop (c :: q').length = sep ++ t :=
              List.drop_left _ _
            have hR : (sep ++ u).drop (c :: q').length
                = sep.drop (c :: q').length ++ u := by
              rw [List.drop_append_eq_append_drop,
                Nat.sub_eq_zero_of_le (Nat.le_of_lt hlen), List.drop_zero]
            rw [hu', hR] at hL
            have hT := congrArg (fun l => l.take (sep.length - (c :: q').length)) hL.symm
            simp only at hT
            have hTL : (sep ++ t).take (sep.length - (c :: q').length)
                = sep.take (sep.length - (c :: q').length) := by
              rw [List.take_append_eq_append_take,
                Nat.sub_eq_zero_of_le (Nat.sub_le _ _)]
              simp
            have hTR : (sep.drop (c :: q').length ++ u).take (sep.length - (c :: q').length)
                = sep.drop (c :: q').length := by
              have hlendrop : (sep.drop (c :: q').length).length
                  = sep.length - (c :: q').length := List.length_drop _ _
              rw [← hlendrop, List.take_left]
            rw [hTL, hTR] at hT
            exact hT.symm
          refine hov (c :: q').length (by simp) hlen hdropeq ?_
          rw [← htakeq]
          exact hq
      · simpa using hcon
    have hstep : (c :: q') ++ (sep ++ t) = c :: (q' ++ (sep ++ t)) := rfl
    rw [hstep] at hlw
    show findOcc sep (c :: (q' ++ (sep ++ t))) = some (c :: q', t)
    simp only [findOcc, hlw, Bool.false_eq_true, if_false, ih hq']

theorem splitSeqFuel_parts (sep : List Char) (hsep : sep ≠ []) :
    ∀ parts : List (List Char),
      (∀ p ∈ parts, findOcc sep p = none ∧
        ∀ d, 0 < d → d < sep.length → sep.drop d = sep.take (sep.length - d) →
          ¬ (sep.take d <:+ p)) →
      parts ≠ [] →
      ∀ fuel, (catSep sep parts).length ≤ fuel →
        splitSeqFuel sep fuel (catSep sep parts) = parts := by
  intro parts
  induction parts with
  | nil => intro _ hne; exact absurd rfl hne
  | cons p ps ih =>
    intro hcond _ fuel hfuel
    cases ps with
    | nil =>
      show splitSeqFuel sep fuel p = [p]
      cases fuel with
      | zero => rfl
      | succ f =>
        have hno := (hcond p (by simp)).1
        simp only [splitSeqFuel, hno]
    | cons q ps' =>
      have hcat : catSep sep (p :: q :: ps') = p ++ sep ++ catSep sep (q :: ps') := rfl
      have hlen : 0 < sep.length := List.length_pos.mpr hsep
      cases fuel with
      | zero =>
        exfalso
        rw [hcat] at hfuel
        simp only [List.length_append, Nat.le_zero] at hfuel
        omega
      | succ f =>
        have hp := hcond p (by simp)
        have hfo := findOcc_append sep (catSep sep (q :: ps')) hsep p hp.1 hp.2
        rw [hcat]
        simp only [splitSeqFuel, hfo]
        congr 1
        refine ih (fun r hr => hcond r (by simp [hr])) (by simp) f ?_
        rw [hcat] at hfuel
        simp only [List.length_append] at hfuel
        omega

theorem splitSeq_parts (sep : List Char) (hsep : sep ≠ [])
    (parts : List (List Char))
    (hcond : ∀ p ∈ parts, findOcc sep p = none ∧
      ∀ d, 0 < d → d < sep.length → sep.drop d = sep.take (sep.length - d) →
        ¬ (sep.take d <:+ p))
    (hne : parts ≠ []) :
    splitSeq sep (catSep sep parts) = parts :=
  splitSeqFuel_parts sep hsep parts hcond hne _ (Nat.le_refl _)

theorem pyJoin_data (sep : String) (parts : List String) :
    (pyJoin sep parts).data = catSep sep.data (parts.map String.data) := by
  induction parts with
  | nil => rfl
  | cons p ps ih =>
    cases ps with
    | nil => rfl
    | cons q ps' =>
      show (p ++ sep ++ pyJoin sep (q :: ps')).data
        = catSep sep.data (p.data :: q.data :: ps'.map String.data)
      rw [String.data_append, String.data_append, ih]
      rfl

theorem sepChars_cond (p : List Char)
    (hno : findOcc sepChars p = none) (hend : endsWith ovlChars p = false) :
    findOcc sepChars p = none ∧
      ∀ d, 0 < d → d < sepChars.length →
        sepChars.drop d = sepChars.take (sepChars.length - d) →
        ¬ (sepChars.take d <:+ p) := by
  refine ⟨hno, ?_⟩
  intro d h1 h2 hov hsuf
  have h5 : sepChars.length = 5 := by decide
  rw [h5] at h2
  interval_cases d
  · exact absurd hov (by decide)
  · exact absurd hov (by decide)
  · exact absurd hov (by decide)
  · have hsuf' : ovlChars <:+ p := by
      have h4 : sepChars.take 4 = ovlChars := by decide
      rwa [h4] at hsuf
    have he := (endsWith_iff ovlChars p).mpr hsuf'
    rw [he] at hend
    exact Bool.noConfusion hend

theorem data_append_ne {x : String} (hx : x.data ≠ []) (y : String) :
    (x ++ y).data ≠ [] := by
  rw [String.data_append]
  intro h
  rcases List.append_eq_nil.mp h with ⟨h1, _⟩
  exact hx h1

theorem slidePart_ne (idx : Nat) (lines : List String) : (slidePart idx lines).data ≠ [] := by
  rw [slidePart]
  split
  · exact data_append_ne (data_append_ne (data_append_ne (by decide) _) _) _
  · exact data_append_ne (data_append_ne (by decide) _) _

theorem extractLoop_parts_shape (ss : List PSlide) :
    ∀ k, ∀ part ∈ (extractLoop k ss).2, ∃ idx lines, part = slidePart idx lines := by
  induction ss with
  | nil => intro k part hp; simp [extractLoop] at hp
  | cons s rest ih =>
    intro k part hp
    simp only [extractLoop] at hp
    rcases List.mem_cons.mp hp with h | h
    · exact ⟨k, slideTexts s.shapes, h⟩
    · exact ih (k + 1) part h

/-- C2 amended: provided no slide's rendered section contains the delimiter
sequence and no section ends with the fragment `"\n---"` (in particular, no
slide text has a line `---`), the outline text splits by the delimiter into
exactly the N per-slide sections, one per slide in order, none empty; a
slide with no text blocks contributes its placeholder-marker section.  The
proviso is necessary: content containing the delimiter breaks the
round-trip, as the counterexample shows. -/
theorem outline_segmentation_amended (ss : List PSlide) (hne : ss ≠ [])
    (hparts : ∀ part ∈ outline_parts ss,
      findOcc sepChars part.data = none ∧ endsWith ovlChars part.data = false) :
    splitSeq sepChars (extract_ppt_structure_and_text ss).outline_text.data
      = (outline_parts ss).map String.data
    ∧ (outline_parts ss).length = ss.length
    ∧ (∀ part ∈ outline_parts ss, part.data ≠ []) := by
  have hlen : (outline_parts ss).length = ss.length := (extractLoop_spec ss 1).2.2
  have hnonnil : outline_parts ss ≠ [] := by
    intro h
    rw [h] at hlen
    exact hne (List.length_eq_zero.mp hlen.symm)
  have hdata : (extract_ppt_structure_and_text ss).outline_text.data
      = catSep sepChars ((outline_parts ss).map String.data) := by
    show (pyJoin "\n---\n" (extractLoop 1 ss).2).data = _
    rw [pyJoin_data]
    rfl
  have hsep : sepChars ≠ [] := by decide
  refine ⟨?_, hlen, ?_⟩
  · rw [hdata]
    refine splitSeq_parts sepChars hsep ((outline_parts ss).map String.data) ?_ ?_
    · intro q hq
      obtain ⟨part, hpart, rfl⟩ := List.mem_map.mp hq
      exact sepChars_cond part.data (hparts part hpart).1 (hparts part hpart).2
    · simpa using hnonnil
  · intro part hp
    obtain ⟨idx, lines, hpl⟩ := extractLoop_parts_shape ss 1 part hp
    rw [hpl]
    exact slidePart_ne idx lines

theorem outline_segmentation_amended_witness :
    splitSeq sepChars
        (extract_ppt_structure_and_text
          [{ shapes := [{ has_text_frame := true, paragraphs := ["Hello", "World"] }] },
           { shapes := [] }]).outline_text.data
      = (outline_parts
          [{ shapes := [{ has_text_frame := true, paragraphs := ["Hello", "World"] }] },
           { shapes := [] }]).map String.data
    ∧ (outline_parts
        [{ shapes := [{ has_text_frame := true, paragraphs := ["Hello", "World"] }] },
         { shapes := [] }]).length
      = ([{ shapes := [{ has_text_frame := true, paragraphs := ["Hello", "World"] }] },
          { shapes := [] }] : List PSlide).length := by
  have h := outline_segmentation_amended
    [{ shapes := [{ has_text_frame := true, paragraphs := ["Hello", "World"] }] },
     { shapes := [] }] (by decide) (by decide)
  exact ⟨h.1, h.2.1⟩

theorem outline_segmentation_counterexample :
    (splitSeq sepChars
      (extract_ppt_structure_and_text
        [{ shapes := [{ has_text_frame := true, paragraphs := ["a", "---", "b"] }] }]).outline_text.data).length
      = 2
    ∧ ([{ shapes := [{ has_text_frame := true, paragraphs := ["a", "---", "b"] }] }] : List PSlide).length = 1
    ∧ (2 : Nat) ≠ 1 :=
  ⟨by decide, by decide, by decide⟩

end GammaBackend